import Mathlib

/-!
Verification development for sync_github_org_team (src/sync.py).

The script reconciles a GitHub organization's membership into a team,
subject to a JSON-configured set of allow/reject regular-expression
rules (USER_FILTERS).  This file gives a shallow embedding of the
script's pure decision logic and of its main reconciliation loop, and
proves / refutes the specification's claims about it.

Modelling conventions:
- Python regular-expression search (re.search with re.IGNORECASE) is
  embedded for the subset of pattern syntax the configuration examples
  exercise: literal characters, the dot wildcard, and the anchors for
  begin and end of string.  Patterns using other metacharacters are
  outside the modelled subset and parse to `none`, standing for the
  patterns Python itself rejects (the concrete malformed pattern used
  below, a lone opening parenthesis, is also malformed for Python).
- Python exceptions are modelled with `Except PyError`: an attribute
  lookup miss (AttributeError from getattr), a compile error from a
  bad pattern (re.error), and a missing dictionary key (KeyError).
- A Python dict is modelled as an association list in insertion order,
  which is how Python 3.7+ dicts iterate.
-/

namespace SyncOrgTeam

/-- Regular-expression abstract syntax for the modelled subset:
empty pattern, a literal character, the dot wildcard, the two anchors,
and concatenation. -/
inductive Re
  | emp
  | char (c : Char)
  | anyc
  | bol
  | eol
  | seq (a b : Re)
deriving DecidableEq

/-- Metacharacters outside the modelled subset.  A pattern containing
one of these is treated as unparseable, standing for the patterns the
source's re.search would reject or that are beyond the subset. -/
def reMeta : List Char := ['*', '+', '?', '(', ')', '[', ']', '|', '\\']

/-- Tokenize a pattern string into atomic regular-expression pieces;
fails on metacharacters outside the modelled subset. -/
def parseTokens : List Char → Option (List Re)
  | [] => some []
  | c :: rest =>
    if c ∈ reMeta then none
    else
      let tok :=
        if c = '^' then Re.bol
        else if c = '$' then Re.eol
        else if c = '.' then Re.anyc
        else Re.char c
      (parseTokens rest).map (fun ts => tok :: ts)

/-- Parse a pattern string into the modelled regular-expression
syntax; `none` models a pattern re.search cannot compile. -/
def parseRe (p : String) : Option Re :=
  (parseTokens p.data).map (fun ts => ts.foldr Re.seq Re.emp)

/-- Match a regular expression at a given position of the subject,
returning the end position on success.  Character comparison is
lowercased on both sides, embedding re.IGNORECASE, which the source
passes on every re.search call. -/
def reMatchFrom : Re → List Char → Nat → Option Nat
  | .emp, _, pos => some pos
  | .char c, s, pos =>
    match s[pos]? with
    | some d => if d.toLower = c.toLower then some (pos + 1) else none
    | none => none
  | .anyc, s, pos =>
    match s[pos]? with
    | some d => if d = '\n' then none else some (pos + 1)
    | none => none
  | .bol, _, pos => if pos = 0 then some pos else none
  | .eol, s, pos =>
    if pos = s.length ∨ (pos + 1 = s.length ∧ s[pos]? = some '\n') then some pos
    else none
  | .seq a b, s, pos => (reMatchFrom a s pos).bind (fun q => reMatchFrom b s q)

/-- Unanchored search: re.search succeeds if the pattern matches
starting at any position of the subject. -/
def reSearch (r : Re) (v : String) : Bool :=
  (List.range (v.data.length + 1)).any (fun i => (reMatchFrom r v.data i).isSome)

/-- A member object as the reconciliation loop sees it: the login key,
plus whatever further attributes getattr can reach on the object
(`none` meaning the attribute does not exist and getattr raises). -/
structure Member where
  login : String
  other : String → Option String

/-- One USER_FILTERS entry (the value dict under one field key): the
optional order key, and the optional reject and allow pattern lists. -/
structure Rule where
  order : Option Int
  reject : Option (List String)
  allow : Option (List String)
deriving DecidableEq

/-- The USER_FILTERS dict: field name to rule, in insertion order. -/
abbrev Filters := List (String × Rule)

/-- Python exceptions the modelled code can raise. -/
inductive PyError
  | attrError (field : String)
  | reError (pattern : String)
  | keyError (key : String)
deriving DecidableEq

/-- getattr(member, field): the login attribute is the member's login;
any other name resolves through the object's remaining attributes and
raises (returns `none`) when absent. -/
def getattrStr (m : Member) (f : String) : Option String :=
  if f = "login" then some m.login else m.other f

/-- Dictionary lookup in USER_FILTERS (field in USER_FILTERS /
USER_FILTERS[field]). -/
def lookupRule (fs : Filters) (f : String) : Option Rule :=
  (fs.find? (fun p => p.1 == f)).map (fun p => p.2)

/-- Key lookup inside one rule dict (key in USER_FILTERS[field] /
USER_FILTERS[field][key]); the source only consults the reject and
allow keys here. -/
def ruleKey (r : Rule) (k : String) : Option (List String) :=
  if k = "reject" then r.reject
  else if k = "allow" then r.allow
  else none

/-- One iteration of the regex loop body of matches_regexes: fetch the
field off the member with getattr (AttributeError when absent), then
run re.search with the pattern (re.error when it does not compile). -/
def matchOne (member : Member) (field : String) (pattern : String) :
    Except PyError Bool :=
  match getattrStr member field with
  | none => .error (.attrError field)
  | some v =>
    match parseRe pattern with
    | none => .error (.reError pattern)
    | some r => .ok (reSearch r v)

/-- The regex loop of matches_regexes: return true on the first
pattern that matches, false when none does. -/
def matchesList (member : Member) (field : String) :
    List String → Except PyError Bool
  | [] => .ok false
  | p :: ps =>
    match matchOne member field p with
    | .error e => .error e
    | .ok true => .ok true
    | .ok false => matchesList member field ps

/-- matches_regexes from the source: guarded by field membership in
USER_FILTERS and key membership in the field's dict, then the pattern
loop. -/
def matches_regexes (fs : Filters) (member : Member) (field key : String) :
    Except PyError Bool :=
  match lookupRule fs field with
  | none => .ok false
  | some rule =>
    match ruleKey rule key with
    | none => .ok false
    | some pats => matchesList member field pats

/-- user_filter_order from the source.  The source tests whether the
string "order" is contained in `item`, but `item` is the (key, value)
tuple produced by dict.items(), so the test holds exactly when the
field NAME is the string "order" (a dict never equals a string); only
then is item[1]["order"] read, raising KeyError when the rule dict has
no order key.  For every other field the sort key is 0. -/
def user_filter_order (item : String × Rule) : Except PyError Int :=
  if item.1 = "order" then
    match item.2.order with
    | some o => .ok o
    | none => .error (.keyError "order")
  else .ok 0

/-- Compute the sort key for every item, in iteration order, stopping
at the first raised exception — as Python's sorted(key=...) does. -/
def mapKeyed : Filters → Except PyError (List ((String × Rule) × Int))
  | [] => .ok []
  | it :: rest =>
    match user_filter_order it with
    | .error e => .error e
    | .ok k =>
      match mapKeyed rest with
      | .error e => .error e
      | .ok r => .ok ((it, k) :: r)

/-- Stable insertion: an element goes before the first element with a
key greater than or equal to its own only when its key is strictly
smaller, so elements with equal keys keep their relative order. -/
def insertStable (x : (String × Rule) × Int) :
    List ((String × Rule) × Int) → List ((String × Rule) × Int)
  | [] => [x]
  | y :: ys => if x.2 ≤ y.2 then x :: y :: ys else y :: insertStable x ys

/-- Stable insertion sort by the computed key, embedding the
stability guarantee of Python's sorted. -/
def isortStable : List ((String × Rule) × Int) → List ((String × Rule) × Int)
  | [] => []
  | x :: xs => insertStable x (isortStable xs)

/-- sorted(USER_FILTERS.items(), key=user_filter_order): key
computation (which can raise) followed by a stable sort on the key. -/
def sortFilters (fs : Filters) : Except PyError Filters :=
  (mapKeyed fs).map (fun l => (isortStable l).map (fun p => p.1))

/-- The rule loop body of allow_user: for each field, if the member
matches a reject pattern the verdict becomes an explicit deny, and
only then is the allow list consulted, flipping the verdict to an
explicit admit on a match; a field with no reject match leaves the
verdict untouched. -/
def allowLoop (fs : Filters) (member : Member) :
    List String → Option Bool → Except PyError (Option Bool)
  | [], v => .ok v
  | field :: rest, v =>
    match matches_regexes fs member field "reject" with
    | .error e => .error e
    | .ok false => allowLoop fs member rest v
    | .ok true =>
      match matches_regexes fs member field "allow" with
      | .error e => .error e
      | .ok alw =>
        allowLoop fs member rest (if alw then some true else some false)

/-- allow_user from the source: start from no finding, iterate the
fields of USER_FILTERS in the order produced by
dict(sorted(USER_FILTERS.items(), key=user_filter_order)), and return
the final tri-state verdict (some true = allow, some false = reject,
none = no finding). -/
def allow_user (fs : Filters) (member : Member) :
    Except PyError (Option Bool) :=
  match sortFilters fs with
  | .error e => .error e
  | .ok sortedFs => allowLoop fs member (sortedFs.map (fun p => p.1)) none

/-- Lowercase a string character by character, embedding the str.lower
call of is_dry_run (defined over the character list so it computes by
structural recursion). -/
def pyLower (s : String) : String := ⟨s.data.map Char.toLower⟩

/-- is_dry_run from the source: lowercase the value; "true"/"yes"
gives true, "false"/"no" gives false, anything else gives true. -/
def is_dry_run (value : String) : Bool :=
  if pyLower value = "true" ∨ pyLower value = "yes" then true
  else if pyLower value = "false" ∨ pyLower value = "no" then false
  else true

/-- One of the three possible outcomes the reconciliation loop picks
for an organization member. -/
inductive Action
  | addToTeam
  | removeFromTeam
  | noOp
deriving DecidableEq

/-- A membership mutation issued against the directory API. -/
inductive ApiCall
  | addMembership (login : String)
  | removeMembership (login : String)
deriving DecidableEq

/-- The login an API call acts on. -/
def apiLogin : ApiCall → String
  | .addMembership m => m
  | .removeMembership m => m

/-- Decision table of the specification (section 4.2), written from
the specification's words for comparison with the loop embedded from
the source: a member in the team with a reject verdict is removed; a
member in the team otherwise gets no action; a member absent from the
team with an allow or neutral verdict is added; a member absent from
the team with a reject verdict gets no action. -/
def decisionTable (inTeam : Bool) (v : Option Bool) : Action :=
  match inTeam, v with
  | true, some false => .removeFromTeam
  | true, _ => .noOp
  | false, some false => .noOp
  | false, _ => .addToTeam

/-- get_group_logins from the source: build the dict mapping each
member login to True, in enumeration order. -/
def get_group_logins (logins : List String) : List (String × Bool) :=
  logins.map (fun l => (l, true))

/-- Dict lookup for the membership snapshots: some value when the key
is present, none otherwise. -/
def lookupDict (d : List (String × Bool)) (k : String) : Option Bool :=
  (d.find? (fun p => p.1 == k)).map (fun p => p.2)

/-- The per-member decision of main's loop, with Python's evaluation
order and short-circuiting: the first branch tests membership in the
team dict, the stored True marker, and an explicit reject verdict; the
second branch tests absence from the team dict and an allow or neutral
verdict; otherwise no action.  allow_user runs only in the branches
where the membership conjuncts already held, and its exceptions
propagate. -/
def memberAction (fs : Filters) (snap : List (String × Bool))
    (ats : String → String → Option String) (m : String) :
    Except PyError Action :=
  match lookupDict snap m with
  | some true =>
    match allow_user fs ⟨m, ats m⟩ with
    | .error e => .error e
    | .ok v => if v = some false then .ok .removeFromTeam else .ok .noOp
  | some false => .ok .noOp
  | none =>
    match allow_user fs ⟨m, ats m⟩ with
    | .error e => .error e
    | .ok v =>
      if v = none ∨ v = some true then .ok .addToTeam else .ok .noOp

/-- add_member_to_team from the source: under dry run return the
distinct skipped marker (none) and touch no API; otherwise issue the
AddMembership call and return its success flag.  The call issued is
reported alongside the wrapper's return value. -/
def add_member_to_team (d : String) (m : String)
    (apiOk : String → Action → Bool) : Option Bool × List ApiCall :=
  if is_dry_run d then (none, [])
  else (some (apiOk m .addToTeam), [.addMembership m])

/-- remove_member_from_team from the source: the removal counterpart
of add_member_to_team, with the same dry-run gate. -/
def remove_member_from_team (d : String) (m : String)
    (apiOk : String → Action → Bool) : Option Bool × List ApiCall :=
  if is_dry_run d then (none, [])
  else (some (apiOk m .removeFromTeam), [.removeMembership m])

/-- The mutation outcome recorded for one member: none when the branch
issued no wrapper call (no action); some of the wrapper's return
value otherwise (which is itself none under dry run, the skipped
marker, and a success flag on a live call). -/
def execOut (d : String) (apiOk : String → Action → Bool) (m : String) :
    Action → Option (Option Bool)
  | .addToTeam => some (add_member_to_team d m apiOk).1
  | .removeFromTeam => some (remove_member_from_team d m apiOk).1
  | .noOp => none

/-- The API calls issued for one member's selected action. -/
def execCalls (d : String) (apiOk : String → Action → Bool) (m : String) :
    Action → List ApiCall
  | .addToTeam => (add_member_to_team d m apiOk).2
  | .removeFromTeam => (remove_member_from_team d m apiOk).2
  | .noOp => []

/-- The result row recorded for one member: login, selected action,
and mutation outcome. -/
abbrev StepRes := String × Action × Option (Option Bool)

/-- The member loop of main: for each organization login in
enumeration order, decide the action against the team snapshot taken
once before the loop, execute it through the wrappers, and record the
row and the issued calls; an exception raised while deciding a member
aborts the remaining enumeration (the pacing sleep has no observable
effect and is not modelled). -/
def runSteps (d : String) (fs : Filters)
    (ats : String → String → Option String)
    (apiOk : String → Action → Bool) (snap : List (String × Bool)) :
    List String → Except PyError (List StepRes × List ApiCall)
  | [] => .ok ([], [])
  | m :: ms =>
    match memberAction fs snap ats m with
    | .error e => .error e
    | .ok a =>
      match runSteps d fs ats apiOk snap ms with
      | .error e => .error e
      | .ok (rs, cs) =>
        .ok ((m, a, execOut d apiOk m a) :: rs, execCalls d apiOk m a ++ cs)

/-- Everything observable from one completed run of main's loop. -/
structure RunTrace where
  results : List StepRes
  calls : List ApiCall
deriving DecidableEq

/-- main from the source, from the point where both snapshots are
taken: run the member loop over the organization snapshot against the
team snapshot built by get_group_logins.  The organization snapshot is
a dict iterated by keys, so it is passed as its key list; members are
resolved to objects whose login is the iterated key and whose further
attributes come from the directory. -/
def runMain (d : String) (org teamLogins : List String) (fs : Filters)
    (ats : String → String → Option String)
    (apiOk : String → Action → Bool) : Except PyError RunTrace :=
  match runSteps d fs ats apiOk (get_group_logins teamLogins) org with
  | .error e => .error e
  | .ok (rs, cs) => .ok ⟨rs, cs⟩

/-- Process exit status of the script around main: a run of main that
returns exits the process with status zero (main neither aggregates
counts nor calls sys.exit), and an uncaught exception exits
non-zero. -/
def scriptExitCode (res : Except PyError RunTrace) : Nat :=
  match res with
  | .ok _ => 0
  | .error _ => 1

/-- Modelled from the spec: the external directory's team state after
the recorded mutation outcomes are applied, following the
AddMembership / RemoveMembership capability interface of section 6 of
the specification (the DirectoryClient itself is an external
collaborator, not code under src/).  A successful add makes the login
a member; a successful removal strips every occurrence of the login; a
skipped, failed, or absent mutation leaves the team unchanged. -/
def applyResult (team : List String) (e : StepRes) : List String :=
  if e.2.1 = Action.addToTeam ∧ e.2.2 = some (some true) then
    if e.1 ∈ team then team else team ++ [e.1]
  else if e.2.1 = Action.removeFromTeam ∧ e.2.2 = some (some true) then
    team.filter (fun y => !(y == e.1))
  else team

/-- Modelled from the spec: the directory's team state after a whole
run's recorded outcomes are applied in order. -/
def applyTrace (team : List String) (rs : List StepRes) : List String :=
  rs.foldl applyResult team

/-- A Python value as far as the module-level configuration checks
observe it: the None singleton or a string. -/
inductive PyVal
  | pynone
  | ofStr (s : String)
deriving DecidableEq

/-- os.getenv(key, None): the environment value when set, None
otherwise. -/
def osGetenvNone (env : String → Option String) (k : String) : PyVal :=
  match env k with
  | some s => .ofStr s
  | none => .pynone

/-- Python's str() as applied at module level: str of None is the
four-character string "None"; str of a string is itself. -/
def pyStrFn : PyVal → PyVal
  | .pynone => .ofStr "None"
  | .ofStr s => .ofStr s

/-- PAT at module level: str(os.getenv("PAT", None)) — always a
string, never None. -/
def PAT (env : String → Option String) : PyVal :=
  pyStrFn (osGetenvNone env "PAT")

/-- ORG at module level: str(os.getenv("ORG", None)) — always a
string, never None. -/
def ORG (env : String → Option String) : PyVal :=
  pyStrFn (osGetenvNone env "ORG")

/-- TEAM_NAME at module level: os.getenv("TEAM_NAME", None), with no
str() wrapper, so it is None exactly when the variable is unset. -/
def TEAM_NAME (env : String → Option String) : PyVal :=
  osGetenvNone env "TEAM_NAME"

/-- The Python "is None" test. -/
def isNone : PyVal → Bool
  | .pynone => true
  | .ofStr _ => false

/-- Whether the module-level configuration checks (the three "is None"
guards that call sys.exit(1)) terminate the process at load time.
These are the only fatal configuration checks the source performs; no
regular-expression pattern is compiled or validated at load time. -/
def loadTimeExit (env : String → Option String) : Bool :=
  isNone (PAT env) || isNone (ORG env) || isNone (TEAM_NAME env)

/-- Concrete rule set of the specification's rule-precedence test:
reject logins starting with w, then allow logins ending in s. -/
def c2filters : Filters := [("login", ⟨none, some ["^w"], some ["s$"]⟩)]

/-- A member object carrying nothing but its login. -/
def mkMember (l : String) : Member := ⟨l, fun _ => none⟩

/-- Directory attribute table exposing no attribute beyond login. -/
def noAttrs : String → String → Option String := fun _ _ => none

/-- Rule set for the order-sensitivity check: the rule on field a
carries order 1 and rejects logins starting with w; the rule on field
b carries order 0, rejects logins starting with w, and allows logins
ending in s. -/
def c3filters : Filters :=
  [("a", ⟨some 1, some ["^w"], none⟩), ("b", ⟨some 0, some ["^w"], some ["s$"]⟩)]

/-- A member whose fields a and b both read "wes". -/
def c3member : Member :=
  ⟨"x", fun f => if f = "a" ∨ f = "b" then some "wes" else none⟩

/-- Rule set whose only rule sits on an unsupported field name and
carries one reject pattern. -/
def c7filters : Filters := [("foo", ⟨none, some ["x"], none⟩)]

/-- Environment with ORG and TEAM_NAME set but PAT unset. -/
def envNoPat : String → Option String := fun k =>
  if k = "ORG" then some "o" else if k = "TEAM_NAME" then some "t" else none

/-- Rule set carrying a pattern that does not compile (a lone opening
parenthesis is malformed for Python's re as well). -/
def badPatternFilters : Filters := [("login", ⟨none, some ["("], none⟩)]

/-- An API oracle under which every mutation succeeds. -/
def allOkApi : String → Action → Bool := fun _ _ => true

/-- An API oracle under which every mutation fails. -/
def allFailApi : String → Action → Bool := fun _ _ => false

end SyncOrgTeam

namespace SyncOrgTeam

/-- The team snapshot dict maps a login to True exactly when the login
is a team member, and has no entry otherwise. -/
theorem find_get_group (T : List String) (m : String) :
    (get_group_logins T).find? (fun p => p.1 == m) =
      if m ∈ T then some (m, true) else none := by
  induction T with
  | nil => rfl
  | cons t ts ih =>
    simp only [get_group_logins, List.map_cons] at *
    by_cases h : t = m
    · subst h
      simp [List.find?]
    · have hbeq : (t == m) = false := by simp [h]
      have h2 : m ≠ t := fun hh => h hh.symm
      simp [List.find?, hbeq, ih, List.mem_cons, h2]

/-- Membership test against the snapshot dict, as main performs it. -/
theorem lookup_get_group (T : List String) (m : String) :
    lookupDict (get_group_logins T) m = if m ∈ T then some true else none := by
  simp only [lookupDict, find_get_group]
  by_cases h : m ∈ T <;> simp [h]

/-- When rule evaluation returns a verdict, the loop's selected action
is exactly the specification's decision table applied to current team
membership and that verdict. -/
theorem memberAction_decision (fs : Filters)
    (ats : String → String → Option String) (T : List String) (m : String)
    (v : Option Bool) (hv : allow_user fs ⟨m, ats m⟩ = .ok v) :
    memberAction fs (get_group_logins T) ats m =
      .ok (decisionTable (decide (m ∈ T)) v) := by
  unfold memberAction
  rw [lookup_get_group]
  by_cases h : m ∈ T
  · simp only [if_pos h, hv, decide_eq_true h]
    rcases v with _ | b
    · rfl
    · cases b <;> rfl
  · simp only [if_neg h, hv, decide_eq_false h]
    rcases v with _ | b
    · rfl
    · cases b <;> rfl

end SyncOrgTeam

namespace SyncOrgTeam

/-- C1: for every organization member, the action taken by the
reconciliation loop matches the decision table exactly — a member in
the team with a reject verdict is removed, a member in the team with
an allow or neutral verdict gets no action, a member not in the team
with an allow or neutral verdict is added, and a member not in the
team with a reject verdict gets no action (default-admit: a neutral
verdict behaves like an explicit allow). -/
theorem decision_table_exhaustive (fs : Filters)
    (ats : String → String → Option String) (team : List String)
    (m : String) (v : Option Bool)
    (hv : allow_user fs ⟨m, ats m⟩ = .ok v) :
    memberAction fs (get_group_logins team) ats m =
      .ok (decisionTable (decide (m ∈ team)) v) :=
  memberAction_decision fs ats team m v hv

theorem decision_table_exhaustive_witness :
    memberAction c2filters (get_group_logins ["wanda"]) noAttrs "wanda" =
      .ok (decisionTable (decide ("wanda" ∈ ["wanda"])) (some false)) :=
  decision_table_exhaustive c2filters noAttrs ["wanda"] "wanda" (some false) rfl

/-- A single rule on a field other than the literal name "order" sorts
to itself. -/
theorem sortFilters_singleton (f : String) (r : Rule) (hord : f ≠ "order") :
    sortFilters [(f, r)] = .ok [(f, r)] := by
  simp [sortFilters, mapKeyed, user_filter_order, hord, isortStable,
    insertStable, Except.map]

/-- C2: rule evaluation uses reject-then-allow precedence within a
single rule — when no reject pattern of the rule matches, the verdict
stays neutral no matter what the allow list holds — and matching is a
case-insensitive unanchored regular-expression search: for the rule
rejecting logins starting with w and allowing logins ending in s,
identity wes evaluates to Allow (as does WES, case-insensitively),
wanda to Reject, and jess to Neutral. -/
theorem rule_precedence (f : String) (r : Rule) (member : Member)
    (hord : f ≠ "order")
    (hrej : matches_regexes [(f, r)] member f "reject" = .ok false) :
    allow_user [(f, r)] member = .ok none
    ∧ allow_user c2filters (mkMember "wes") = .ok (some true)
    ∧ allow_user c2filters (mkMember "WES") = .ok (some true)
    ∧ allow_user c2filters (mkMember "wanda") = .ok (some false)
    ∧ allow_user c2filters (mkMember "jess") = .ok none := by
  refine ⟨?_, rfl, rfl, rfl, rfl⟩
  simp [allow_user, sortFilters_singleton f r hord, allowLoop, hrej]

theorem rule_precedence_witness :
    (allow_user [("login", (⟨none, some ["^w"], some ["s$"]⟩ : Rule))]
        (mkMember "jess") = .ok none)
    ∧ allow_user c2filters (mkMember "wes") = .ok (some true)
    ∧ allow_user c2filters (mkMember "WES") = .ok (some true)
    ∧ allow_user c2filters (mkMember "wanda") = .ok (some false)
    ∧ allow_user c2filters (mkMember "jess") = .ok none :=
  rule_precedence "login" ⟨none, some ["^w"], some ["s$"]⟩ (mkMember "jess")
    (by decide) rfl

/-- C3 counter-evidence: user_filter_order tests whether the string
"order" is an element of the (field name, rule) pair, not a key of the
rule dict, so a rule on field a with order 1 still gets sort key 0;
with the order-0 rule on field b declared second, declaration order
wins the sort and the verdict of the rule on field b (Allow for a
member reading wes on both fields) is final, where the claimed
ascending-order evaluation would end on the rule on field a and return
Reject. -/
theorem order_key_never_read :
    user_filter_order ("a", ⟨some 1, some ["^w"], none⟩) = .ok 0
    ∧ sortFilters c3filters = .ok c3filters
    ∧ allow_user c3filters c3member = .ok (some true) :=
  ⟨rfl, rfl, rfl⟩

/-- C5 counter-evidence: with PAT unset in the environment, the
module-level guard never fires, because str(os.getenv("PAT", None))
is the string "None" and the subsequent "is None" test is always
false, so the process does not exit before directory calls; and a
malformed rule pattern is not surfaced at load time (loadTimeExit
compiles no pattern) but mid-run, after both membership snapshots
were taken, as the run's error shows. -/
theorem config_errors_not_fail_fast :
    PAT envNoPat = .ofStr "None"
    ∧ loadTimeExit envNoPat = false
    ∧ runMain "False" ["wes"] [] badPatternFilters noAttrs allOkApi =
        .error (.reError "(") :=
  ⟨rfl, rfl, rfl⟩

/-- C7 counterexample: a rule on the unsupported field foo with one
reject pattern does not degrade to a no-op — getattr raises, the rule
evaluation fails, and the run aborts, where the claim requires a
neutral verdict and no failure. -/
theorem unsupported_field_raises :
    allow_user c7filters (mkMember "wes") = .error (.attrError "foo") := rfl

/-- C7 amended: a rule whose field is not an attribute of the member
object is ignored only when its reject list is absent or empty; as
soon as the consulted reject list holds a pattern, evaluation raises
an attribute error for that field and the run fails (the field name
"order" is excluded here because the sort key computation itself
raises for it when the rule has no order entry). -/
theorem unsupported_field_amended (f : String) (r : Rule) (member : Member)
    (hf : getattrStr member f = none) (hord : f ≠ "order") :
    ((r.reject = none ∨ r.reject = some []) →
      allow_user [(f, r)] member = .ok none)
    ∧ (∀ p ps, r.reject = some (p :: ps) →
      allow_user [(f, r)] member = .error (.attrError f)) := by
  have hlook : lookupRule [(f, r)] f = some r := by
    simp [lookupRule, List.find?]
  constructor
  · intro hrej
    have hm : matches_regexes [(f, r)] member f "reject" = .ok false := by
      rcases hrej with h | h <;>
        simp [matches_regexes, hlook, ruleKey, h, matchesList]
    simp [allow_user, sortFilters_singleton f r hord, allowLoop, hm]
  · intro p ps hrej
    have hm : matches_regexes [(f, r)] member f "reject" =
        .error (.attrError f) := by
      simp [matches_regexes, hlook, ruleKey, hrej, matchesList, matchOne, hf]
    simp [allow_user, sortFilters_singleton f r hord, allowLoop, hm]

theorem unsupported_field_amended_witness :
    allow_user [("foo", (⟨none, none, none⟩ : Rule))] (mkMember "wes") =
      .ok none :=
  (unsupported_field_amended "foo" ⟨none, none, none⟩ (mkMember "wes") rfl
    (by decide)).1 (Or.inl rfl)

/-- C10: the dry-run flag parser is fail-safe — it returns false
(perform writes) exactly when the lowercased value is "false" or "no",
and true (writes disabled) for every other string. -/
theorem is_dry_run_fail_safe (v : String) :
    is_dry_run v = false ↔ (pyLower v = "false" ∨ pyLower v = "no") := by
  unfold is_dry_run
  split_ifs with h1 h2
  · constructor
    · intro h
      exact absurd h (by decide)
    · intro h
      rcases h1 with ha | ha <;> rcases h with hb | hb <;>
        rw [ha] at hb <;> exact absurd hb (by decide)
  · exact ⟨fun _ => h2, fun _ => rfl⟩
  · constructor
    · intro h
      exact absurd h (by decide)
    · intro h
      exact absurd h h2

end SyncOrgTeam

namespace SyncOrgTeam

/-- Inversion of one iteration of the member loop: a successful run
over a non-empty organization snapshot decomposes into the head
member's decision, its recorded row and calls, and a successful run
over the tail. -/
theorem runSteps_cons_inv (d : String) (fs : Filters)
    (ats : String → String → Option String) (apiOk : String → Action → Bool)
    (snap : List (String × Bool)) (m : String) (ms : List String)
    (rs : List StepRes) (cs : List ApiCall)
    (h : runSteps d fs ats apiOk snap (m :: ms) = .ok (rs, cs)) :
    ∃ a rs' cs', memberAction fs snap ats m = .ok a
      ∧ runSteps d fs ats apiOk snap ms = .ok (rs', cs')
      ∧ rs = (m, a, execOut d apiOk m a) :: rs'
      ∧ cs = execCalls d apiOk m a ++ cs' := by
  cases hma : memberAction fs snap ats m with
  | error e => simp [runSteps, hma] at h
  | ok a =>
    cases hrec : runSteps d fs ats apiOk snap ms with
    | error e => simp [runSteps, hma, hrec] at h
    | ok pr =>
      obtain ⟨rs', cs'⟩ := pr
      simp only [runSteps, hma, hrec, Except.ok.injEq, Prod.mk.injEq] at h
      exact ⟨a, rs', cs', rfl, rfl, h.1.symm, h.2.symm⟩

/-- A successful run over the empty snapshot records nothing. -/
theorem runSteps_nil_inv (d : String) (fs : Filters)
    (ats : String → String → Option String) (apiOk : String → Action → Bool)
    (snap : List (String × Bool)) (rs : List StepRes) (cs : List ApiCall)
    (h : runSteps d fs ats apiOk snap [] = .ok (rs, cs)) :
    rs = [] ∧ cs = [] := by
  simp only [runSteps, Except.ok.injEq, Prod.mk.injEq] at h
  exact ⟨h.1.symm, h.2.symm⟩

/-- A successful run of main decomposes into a successful member loop
over the organization snapshot against the team snapshot. -/
theorem runMain_inv (d : String) (org teamLogins : List String)
    (fs : Filters) (ats : String → String → Option String)
    (apiOk : String → Action → Bool) (t : RunTrace)
    (h : runMain d org teamLogins fs ats apiOk = .ok t) :
    runSteps d fs ats apiOk (get_group_logins teamLogins) org =
      .ok (t.results, t.calls) := by
  unfold runMain at h
  cases hrs : runSteps d fs ats apiOk (get_group_logins teamLogins) org with
  | error e => rw [hrs] at h; exact absurd h (by simp)
  | ok pr =>
    obtain ⟨rs, cs⟩ := pr
    rw [hrs] at h
    injection h with h2
    subst h2
    rfl

/-- Every call a member's action produces acts on that member. -/
theorem execCalls_login (d : String) (apiOk : String → Action → Bool)
    (m : String) (a : Action) : ∀ c ∈ execCalls d apiOk m a, apiLogin c = m := by
  intro c hc
  cases a with
  | addToTeam =>
    simp only [execCalls, add_member_to_team] at hc
    split at hc
    · simp at hc
    · simp at hc
      subst hc
      rfl
  | removeFromTeam =>
    simp only [execCalls, remove_member_from_team] at hc
    split at hc
    · simp at hc
    · simp at hc
      subst hc
      rfl
  | noOp => simp [execCalls] at hc

/-- Every recorded row belongs to an organization member and every
issued call acts on an organization member. -/
theorem runSteps_logins (d : String) (fs : Filters)
    (ats : String → String → Option String) (apiOk : String → Action → Bool)
    (snap : List (String × Bool)) :
    ∀ org rs cs, runSteps d fs ats apiOk snap org = .ok (rs, cs) →
      (∀ e ∈ rs, e.1 ∈ org) ∧ (∀ c ∈ cs, apiLogin c ∈ org) := by
  intro org
  induction org with
  | nil =>
    intro rs cs h
    obtain ⟨h1, h2⟩ := runSteps_nil_inv d fs ats apiOk snap rs cs h
    subst h1
    subst h2
    simp
  | cons m ms ih =>
    intro rs cs h
    obtain ⟨a, rs', cs', hma, hrec, hrs, hcs⟩ :=
      runSteps_cons_inv d fs ats apiOk snap m ms rs cs h
    obtain ⟨ih1, ih2⟩ := ih rs' cs' hrec
    subst hrs
    subst hcs
    constructor
    · intro e he
      rcases List.mem_cons.mp he with he | he
      · subst he
        exact List.mem_cons_self m ms
      · exact List.mem_cons_of_mem m (ih1 e he)
    · intro c hc
      rcases List.mem_append.mp hc with hc | hc
      · rw [← execCalls_login d apiOk m a c hc]
        exact List.mem_cons_self (apiLogin c) ms
      · exact List.mem_cons_of_mem m (ih2 c hc)

/-- The loop records exactly one row per organization member. -/
theorem runSteps_length (d : String) (fs : Filters)
    (ats : String → String → Option String) (apiOk : String → Action → Bool)
    (snap : List (String × Bool)) :
    ∀ org rs cs, runSteps d fs ats apiOk snap org = .ok (rs, cs) →
      rs.length = org.length := by
  intro org
  induction org with
  | nil =>
    intro rs cs h
    obtain ⟨h1, _⟩ := runSteps_nil_inv d fs ats apiOk snap rs cs h
    subst h1
    rfl
  | cons m ms ih =>
    intro rs cs h
    obtain ⟨a, rs', cs', hma, hrec, hrs, hcs⟩ :=
      runSteps_cons_inv d fs ats apiOk snap m ms rs cs h
    subst hrs
    simp [ih rs' cs' hrec]

/-- Under dry run the loop issues no call and records the skipped
marker for every member whose action is a mutation. -/
theorem runSteps_dry (d : String) (fs : Filters)
    (ats : String → String → Option String) (apiOk : String → Action → Bool)
    (snap : List (String × Bool)) (hd : is_dry_run d = true) :
    ∀ org rs cs, runSteps d fs ats apiOk snap org = .ok (rs, cs) →
      cs = [] ∧ ∀ e ∈ rs, e.2.1 ≠ Action.noOp → e.2.2 = some none := by
  intro org
  induction org with
  | nil =>
    intro rs cs h
    obtain ⟨h1, h2⟩ := runSteps_nil_inv d fs ats apiOk snap rs cs h
    subst h1
    subst h2
    simp
  | cons m ms ih =>
    intro rs cs h
    obtain ⟨a, rs', cs', hma, hrec, hrs, hcs⟩ :=
      runSteps_cons_inv d fs ats apiOk snap m ms rs cs h
    obtain ⟨ihc, ihr⟩ := ih rs' cs' hrec
    subst hrs
    subst hcs
    subst ihc
    constructor
    · cases a <;>
        simp [execCalls, add_member_to_team, remove_member_from_team, hd]
    · intro e he hne
      rcases List.mem_cons.mp he with he | he
      · subst he
        simp only at hne
        cases a with
        | noOp => exact absurd rfl hne
        | addToTeam => simp [execOut, add_member_to_team, hd]
        | removeFromTeam => simp [execOut, remove_member_from_team, hd]
      · exact ihr e he hne

/-- The per-member plan (login and selected action) is the same for
any two successful runs over the same snapshots and rules, whatever
the dry-run setting and whatever the API answers. -/
theorem runSteps_plan (d d' : String) (fs : Filters)
    (ats : String → String → Option String)
    (apiOk apiOk' : String → Action → Bool) (snap : List (String × Bool)) :
    ∀ org rs cs rs' cs',
      runSteps d fs ats apiOk snap org = .ok (rs, cs) →
      runSteps d' fs ats apiOk' snap org = .ok (rs', cs') →
      rs.map (fun e => (e.1, e.2.1)) = rs'.map (fun e => (e.1, e.2.1)) := by
  intro org
  induction org with
  | nil =>
    intro rs cs rs' cs' h h'
    obtain ⟨h1, _⟩ := runSteps_nil_inv d fs ats apiOk snap rs cs h
    obtain ⟨h1', _⟩ := runSteps_nil_inv d' fs ats apiOk' snap rs' cs' h'
    subst h1
    subst h1'
    rfl
  | cons m ms ih =>
    intro rs cs rs' cs' h h'
    obtain ⟨a, r1, c1, hma, hrec, hrs, hcs⟩ :=
      runSteps_cons_inv d fs ats apiOk snap m ms rs cs h
    obtain ⟨a2, r2, c2, hma2, hrec2, hrs2, hcs2⟩ :=
      runSteps_cons_inv d' fs ats apiOk' snap m ms rs' cs' h'
    have ha : a = a2 := by
      rw [hma] at hma2
      injection hma2
    subst ha
    subst hrs
    subst hrs2
    simp [ih r1 c1 r2 c2 hrec hrec2]

end SyncOrgTeam

namespace SyncOrgTeam

/-- C4: under dry run no AddMembership or RemoveMembership call is
issued against the directory, the mutation wrapper records the
distinct skipped marker (not a success/failure result) for every
member whose action is a mutation, and the per-member plan of logins
and actions is identical to the one any run — in particular a live
run — computes over the same snapshots. -/
theorem dry_run_purity (d d' : String) (org teamLogins : List String)
    (fs : Filters) (ats : String → String → Option String)
    (apiOk apiOk' : String → Action → Bool) (t t' : RunTrace)
    (hd : is_dry_run d = true)
    (h : runMain d org teamLogins fs ats apiOk = .ok t)
    (h' : runMain d' org teamLogins fs ats apiOk' = .ok t') :
    t.calls = []
    ∧ (∀ e ∈ t.results, e.2.1 ≠ Action.noOp → e.2.2 = some none)
    ∧ t.results.map (fun e => (e.1, e.2.1)) =
        t'.results.map (fun e => (e.1, e.2.1)) := by
  have hs := runMain_inv d org teamLogins fs ats apiOk t h
  have hs' := runMain_inv d' org teamLogins fs ats apiOk' t' h'
  obtain ⟨hc, hr⟩ := runSteps_dry d fs ats apiOk
    (get_group_logins teamLogins) hd org t.results t.calls hs
  exact ⟨hc, hr, runSteps_plan d d' fs ats apiOk apiOk'
    (get_group_logins teamLogins) org t.results t.calls t'.results t'.calls
    hs hs'⟩

theorem dry_run_purity_witness :
    (RunTrace.mk [("wes", Action.addToTeam, some none),
      ("wanda", Action.removeFromTeam, some none)] []).calls = []
    ∧ (∀ e ∈ (RunTrace.mk [("wes", Action.addToTeam, some none),
        ("wanda", Action.removeFromTeam, some none)] []).results,
        e.2.1 ≠ Action.noOp → e.2.2 = some none)
    ∧ (RunTrace.mk [("wes", Action.addToTeam, some none),
        ("wanda", Action.removeFromTeam, some none)] []).results.map
          (fun e => (e.1, e.2.1)) =
      (RunTrace.mk [("wes", Action.addToTeam, some (some true)),
        ("wanda", Action.removeFromTeam, some (some true))]
        [ApiCall.addMembership "wes", ApiCall.removeMembership "wanda"]
        ).results.map (fun e => (e.1, e.2.1)) :=
  dry_run_purity "True" "False" ["wes", "wanda"] ["wanda"] c2filters noAttrs
    allOkApi allOkApi
    ⟨[("wes", Action.addToTeam, some none),
      ("wanda", Action.removeFromTeam, some none)], []⟩
    ⟨[("wes", Action.addToTeam, some (some true)),
      ("wanda", Action.removeFromTeam, some (some true))],
      [ApiCall.addMembership "wes", ApiCall.removeMembership "wanda"]⟩
    rfl rfl rfl

/-- C8: an identity present in the team snapshot but absent from the
organization snapshot is never the target of any issued call — in
particular no RemoveMembership for it — and is never visited by the
loop: only identities enumerated from the organization snapshot are
acted upon. -/
theorem org_scoped_removals (d : String) (org teamLogins : List String)
    (fs : Filters) (ats : String → String → Option String)
    (apiOk : String → Action → Bool) (x : String) (t : RunTrace)
    (_hxt : x ∈ teamLogins) (hxo : x ∉ org)
    (h : runMain d org teamLogins fs ats apiOk = .ok t) :
    (∀ c ∈ t.calls, c ≠ ApiCall.removeMembership x)
    ∧ (∀ e ∈ t.results, e.1 ≠ x) := by
  have hs := runMain_inv d org teamLogins fs ats apiOk t h
  obtain ⟨hres, hcalls⟩ := runSteps_logins d fs ats apiOk
    (get_group_logins teamLogins) org t.results t.calls hs
  constructor
  · intro c hc hcx
    apply hxo
    have := hcalls c hc
    rw [hcx] at this
    exact this
  · intro e he hex
    apply hxo
    rw [← hex]
    exact hres e he

theorem org_scoped_removals_witness :
    (∀ c ∈ (RunTrace.mk [("wes", Action.addToTeam, some (some true))]
        [ApiCall.addMembership "wes"]).calls,
      c ≠ ApiCall.removeMembership "gone")
    ∧ (∀ e ∈ (RunTrace.mk [("wes", Action.addToTeam, some (some true))]
        [ApiCall.addMembership "wes"]).results, e.1 ≠ "gone") :=
  org_scoped_removals "False" ["wes"] ["gone"] c2filters noAttrs allOkApi
    "gone" ⟨[("wes", Action.addToTeam, some (some true))],
      [ApiCall.addMembership "wes"]⟩
    (by decide) (by decide) rfl

/-- C9 counterexample: a completed live run in which the only mutation
fails still finishes main normally and the process exits with status
zero, where the claim requires a non-zero exit status whenever any
individual mutation call failed (and the run produces no aggregate
summary to report the failure in). -/
theorem mutation_failure_exits_zero :
    runMain "False" ["wanda"] ["wanda"] c2filters noAttrs allFailApi =
      .ok ⟨[("wanda", Action.removeFromTeam, some (some false))],
        [ApiCall.removeMembership "wanda"]⟩
    ∧ scriptExitCode (runMain "False" ["wanda"] ["wanda"] c2filters noAttrs
        allFailApi) = 0 :=
  ⟨rfl, rfl⟩

/-- C9 amended: a completed run records one per-member result row for
every organization member — individual mutation failures do not abort
the enumeration of the remaining members — but the source aggregates
no counts into any structured summary, and the process exit status of
a completed run is zero regardless of how many mutation calls
failed. -/
theorem run_completion_no_summary (d : String) (org teamLogins : List String)
    (fs : Filters) (ats : String → String → Option String)
    (apiOk : String → Action → Bool) (t : RunTrace)
    (h : runMain d org teamLogins fs ats apiOk = .ok t) :
    t.results.length = org.length
    ∧ scriptExitCode (runMain d org teamLogins fs ats apiOk) = 0 := by
  have hs := runMain_inv d org teamLogins fs ats apiOk t h
  refine ⟨runSteps_length d fs ats apiOk (get_group_logins teamLogins) org
    t.results t.calls hs, ?_⟩
  rw [h]
  rfl

theorem run_completion_no_summary_witness :
    (RunTrace.mk [("wanda", Action.removeFromTeam, some (some false))]
      [ApiCall.removeMembership "wanda"]).results.length =
        (["wanda"] : List String).length
    ∧ scriptExitCode (runMain "False" ["wanda"] ["wanda"] c2filters noAttrs
        allFailApi) = 0 :=
  run_completion_no_summary "False" ["wanda"] ["wanda"] c2filters noAttrs
    allFailApi ⟨[("wanda", Action.removeFromTeam, some (some false))],
      [ApiCall.removeMembership "wanda"]⟩ rfl

end SyncOrgTeam

namespace SyncOrgTeam

/-- Applying a run prefix one row at a time. -/
theorem applyTrace_cons (team : List String) (e : StepRes)
    (rs : List StepRes) :
    applyTrace team (e :: rs) = applyTrace (applyResult team e) rs := rfl

/-- A recorded row for one login leaves every other login's team
membership unchanged. -/
theorem applyResult_other (team : List String) (e : StepRes) (x : String)
    (hx : e.1 ≠ x) : x ∈ applyResult team e ↔ x ∈ team := by
  have hxs : x ≠ e.1 := fun hh => hx hh.symm
  unfold applyResult
  split_ifs with h1 h2 h3
  · exact Iff.rfl
  · simp [List.mem_append, hxs]
  · simp [List.mem_filter, hxs]
  · exact Iff.rfl

/-- A run whose rows all concern other logins leaves a login's team
membership unchanged. -/
theorem applyTrace_other (rs : List StepRes) :
    ∀ (team : List String) (x : String), (∀ e ∈ rs, e.1 ≠ x) →
      (x ∈ applyTrace team rs ↔ x ∈ team) := by
  induction rs with
  | nil => intro team x _; exact Iff.rfl
  | cons e rest ih =>
    intro team x h
    have h1 : e.1 ≠ x := h e (List.mem_cons_self e rest)
    have h2 : ∀ e' ∈ rest, e'.1 ≠ x :=
      fun e' he' => h e' (List.mem_cons_of_mem e he')
    rw [applyTrace_cons]
    exact (ih (applyResult team e) x h2).trans (applyResult_other team e x h1)

/-- Every recorded row carries exactly the action the decision logic
selects for its login. -/
theorem runSteps_entries (d : String) (fs : Filters)
    (ats : String → String → Option String) (apiOk : String → Action → Bool)
    (snap : List (String × Bool)) :
    ∀ org rs cs, runSteps d fs ats apiOk snap org = .ok (rs, cs) →
      ∀ e ∈ rs, memberAction fs snap ats e.1 = .ok e.2.1 := by
  intro org
  induction org with
  | nil =>
    intro rs cs h e he
    obtain ⟨h1, _⟩ := runSteps_nil_inv d fs ats apiOk snap rs cs h
    subst h1
    simp at he
  | cons m ms ih =>
    intro rs cs h e he
    obtain ⟨a, rs', cs', hma, hrec, hrs, hcs⟩ :=
      runSteps_cons_inv d fs ats apiOk snap m ms rs cs h
    subst hrs
    rcases List.mem_cons.mp he with he | he
    · subst he
      exact hma
    · exact ih rs' cs' hrec e he

/-- On a live run with an always-successful API, a mutation action's
recorded outcome is a success. -/
theorem execOut_live_ok (d : String) (apiOk : String → Action → Bool)
    (m : String) (hd : is_dry_run d = false)
    (hok : ∀ m a, apiOk m a = true) :
    execOut d apiOk m Action.addToTeam = some (some true)
    ∧ execOut d apiOk m Action.removeFromTeam = some (some true) := by
  constructor <;>
    simp [execOut, add_member_to_team, remove_member_from_team, hd, hok]

/-- When a run decided while snapshotting no row raised, the action is
the one required by the decision logic, so a successful loop never
issues a call for a no-action row. -/
theorem runSteps_calls_noop (d : String) (fs : Filters)
    (ats : String → String → Option String) (apiOk : String → Action → Bool)
    (snap : List (String × Bool)) :
    ∀ org rs cs, runSteps d fs ats apiOk snap org = .ok (rs, cs) →
      (∀ e ∈ rs, e.2.1 = Action.noOp) → cs = [] := by
  intro org
  induction org with
  | nil =>
    intro rs cs h _
    exact (runSteps_nil_inv d fs ats apiOk snap rs cs h).2
  | cons m ms ih =>
    intro rs cs h hall
    obtain ⟨a, rs', cs', hma, hrec, hrs, hcs⟩ :=
      runSteps_cons_inv d fs ats apiOk snap m ms rs cs h
    subst hrs
    subst hcs
    have ha : a = Action.noOp :=
      hall (m, a, execOut d apiOk m a) (List.mem_cons_self _ _)
    subst ha
    rw [ih rs' cs' hrec (fun e he => hall e (List.mem_cons_of_mem _ he))]
    rfl

/-- A decision the loop accepted implies the rule verdict for that
member was computed without an exception. -/
theorem memberAction_ok_allow (fs : Filters)
    (ats : String → String → Option String) (T : List String) (m : String)
    (a : Action) (h : memberAction fs (get_group_logins T) ats m = .ok a) :
    ∃ v, allow_user fs ⟨m, ats m⟩ = .ok v := by
  unfold memberAction at h
  rw [lookup_get_group] at h
  by_cases hmt : m ∈ T
  · rw [if_pos hmt] at h
    cases hv : allow_user fs ⟨m, ats m⟩ with
    | error e => rw [hv] at h; exact absurd h (by simp)
    | ok v => exact ⟨v, rfl⟩
  · rw [if_neg hmt] at h
    cases hv : allow_user fs ⟨m, ats m⟩ with
    | error e => rw [hv] at h; exact absurd h (by simp)
    | ok v => exact ⟨v, rfl⟩

/-- Core of the idempotence argument: after a live run with successful
mutations over a duplicate-free organization snapshot, an organization
member belongs to the updated directory team state exactly when the
member's verdict is not an explicit reject.  The team list the run was
snapshotted from and the base list the outcomes are applied to may
differ, as long as they agree on the member in question. -/
theorem steps_apply (d : String) (fs : Filters)
    (ats : String → String → Option String) (apiOk : String → Action → Bool)
    (hd : is_dry_run d = false) (hok : ∀ m a, apiOk m a = true) :
    ∀ (org team base : List String) (rs : List StepRes) (cs : List ApiCall)
      (x : String) (v : Option Bool),
      org.Nodup → x ∈ org → (x ∈ base ↔ x ∈ team) →
      runSteps d fs ats apiOk (get_group_logins team) org = .ok (rs, cs) →
      allow_user fs ⟨x, ats x⟩ = .ok v →
      (x ∈ applyTrace base rs ↔ v ≠ some false) := by
  intro org
  induction org with
  | nil =>
    intro team base rs cs x v _ hx
    exact absurd hx (List.not_mem_nil x)
  | cons m ms ih =>
    intro team base rs cs x v hnd hx hbase h hv
    obtain ⟨a, rs', cs', hma, hrec, hrs, hcs⟩ :=
      runSteps_cons_inv d fs ats apiOk (get_group_logins team) m ms rs cs h
    subst hrs
    have hnd' : ms.Nodup := (List.nodup_cons.mp hnd).2
    have hm_not : m ∉ ms := (List.nodup_cons.mp hnd).1
    rw [applyTrace_cons]
    by_cases hxm : x = m
    · subst hxm
      have hframe : ∀ e ∈ rs', e.1 ≠ x := by
        intro e he hex
        have hmem : e.1 ∈ ms :=
          (runSteps_logins d fs ats apiOk (get_group_logins team) ms rs' cs'
            hrec).1 e he
        rw [hex] at hmem
        exact hm_not hmem
      rw [applyTrace_other rs' (applyResult base (x, a, execOut d apiOk x a))
        x hframe]
      have hdec := memberAction_decision fs ats team x v hv
      have hda : (Except.ok a : Except PyError Action) =
          .ok (decisionTable (decide (x ∈ team)) v) := hma.symm.trans hdec
      injection hda with ha
      subst ha
      by_cases hmt : x ∈ team
      · rw [decide_eq_true hmt]
        rcases v with _ | b
        · simp only [decisionTable]
          simp [applyResult, execOut, hbase, hmt]
        · cases b
          · simp only [decisionTable]
            simp [applyResult, (execOut_live_ok d apiOk x hd hok).2,
              List.mem_filter]
          · simp only [decisionTable]
            simp [applyResult, execOut, hbase, hmt]
      · rw [decide_eq_false hmt]
        rcases v with _ | b
        · simp only [decisionTable]
          have hadd := (execOut_live_ok d apiOk x hd hok).1
          by_cases hxb : x ∈ base
          · simp [applyResult, hadd, hxb]
          · simp [applyResult, hadd, hxb, List.mem_append]
        · cases b
          · simp only [decisionTable]
            simp [applyResult, execOut, hbase, hmt]
          · simp only [decisionTable]
            have hadd := (execOut_live_ok d apiOk x hd hok).1
            by_cases hxb : x ∈ base
            · simp [applyResult, hadd, hxb]
            · simp [applyResult, hadd, hxb, List.mem_append]
    · have hmx : m ≠ x := fun hh => hxm hh.symm
      have hx' : x ∈ ms := by
        rcases List.mem_cons.mp hx with h1 | h1
        · exact absurd h1 hxm
        · exact h1
      exact ih team (applyResult base (m, a, execOut d apiOk m a)) rs' cs' x v
        hnd' hx'
        ((applyResult_other base (m, a, execOut d apiOk m a) x hmx).trans hbase)
        hrec hv

end SyncOrgTeam

namespace SyncOrgTeam

/-- C6: reconciliation is idempotent — after a completed live pass
whose mutations all succeeded, over a duplicate-free organization
snapshot, a second pass run against the updated directory team state
with the same organization and rules selects no AddToTeam and no
RemoveFromTeam action for any member, and issues no call. -/
theorem reconciliation_idempotent (d : String) (org teamLogins : List String)
    (fs : Filters) (ats : String → String → Option String)
    (apiOk : String → Action → Bool) (t1 t2 : RunTrace)
    (hnd : org.Nodup) (hd : is_dry_run d = false)
    (hok : ∀ m a, apiOk m a = true)
    (h1 : runMain d org teamLogins fs ats apiOk = .ok t1)
    (h2 : runMain d org (applyTrace teamLogins t1.results) fs ats apiOk =
      .ok t2) :
    (∀ e ∈ t2.results, e.2.1 = Action.noOp) ∧ t2.calls = [] := by
  have hs1 := runMain_inv d org teamLogins fs ats apiOk t1 h1
  have hs2 := runMain_inv d org (applyTrace teamLogins t1.results) fs ats
    apiOk t2 h2
  have hall : ∀ e ∈ t2.results, e.2.1 = Action.noOp := by
    intro e he
    have hma := runSteps_entries d fs ats apiOk
      (get_group_logins (applyTrace teamLogins t1.results)) org t2.results
      t2.calls hs2 e he
    have hmem : e.1 ∈ org :=
      (runSteps_logins d fs ats apiOk
        (get_group_logins (applyTrace teamLogins t1.results)) org t2.results
        t2.calls hs2).1 e he
    obtain ⟨v, hv⟩ := memberAction_ok_allow fs ats
      (applyTrace teamLogins t1.results) e.1 e.2.1 hma
    have hdec := memberAction_decision fs ats
      (applyTrace teamLogins t1.results) e.1 v hv
    have hda : (Except.ok e.2.1 : Except PyError Action) =
        .ok (decisionTable (decide (e.1 ∈ applyTrace teamLogins t1.results))
          v) := hma.symm.trans hdec
    injection hda with hact
    have hiff := steps_apply d fs ats apiOk hd hok org teamLogins teamLogins
      t1.results t1.calls e.1 v hnd hmem Iff.rfl hs1 hv
    rw [hact]
    by_cases hvf : v = some false
    · have hnotin : ¬(e.1 ∈ applyTrace teamLogins t1.results) :=
        fun hmem2 => (hiff.mp hmem2) hvf
      rw [decide_eq_false hnotin, hvf]
      rfl
    · have hin : e.1 ∈ applyTrace teamLogins t1.results := hiff.mpr hvf
      rw [decide_eq_true hin]
      rcases v with _ | b
      · rfl
      · cases b
        · exact absurd rfl hvf
        · rfl
  exact ⟨hall,
    runSteps_calls_noop d fs ats apiOk
      (get_group_logins (applyTrace teamLogins t1.results)) org t2.results
      t2.calls hs2 hall⟩

theorem reconciliation_idempotent_witness :
    (∀ e ∈ (RunTrace.mk [("wes", Action.noOp, none),
        ("wanda", Action.noOp, none)] []).results, e.2.1 = Action.noOp)
    ∧ (RunTrace.mk [("wes", Action.noOp, none),
        ("wanda", Action.noOp, none)] []).calls = [] :=
  reconciliation_idempotent "False" ["wes", "wanda"] ["wanda"] c2filters
    noAttrs allOkApi
    ⟨[("wes", Action.addToTeam, some (some true)),
      ("wanda", Action.removeFromTeam, some (some true))],
      [ApiCall.addMembership "wes", ApiCall.removeMembership "wanda"]⟩
    ⟨[("wes", Action.noOp, none), ("wanda", Action.noOp, none)], []⟩
    (by decide) rfl (fun _ _ => rfl) rfl rfl

end SyncOrgTeam
